/-
Verification of the Color-Robot geometry/G-code pipeline
(pythonFlaskServer/main.py) against its natural-language specification.

The Python source is shallowly embedded below: machine floats are modelled
as exact rationals (ℚ), tuples as products, Python lists as `List`, and the
file/serial sinks as the list of text lines they would receive.  Each
definition mirrors one function of the source; theorems about the claims
follow at the end of the file.
-/
import Mathlib

set_option maxHeartbeats 1000000

/-! ### Global constants (main.py lines 62-63) -/

/-- `IMDIM = 305`: pixels in each dimension of the canonical image. -/
def IMDIM : ℕ := 305

/-- `SMOOTHERR = 1`: tolerance when approximating raster runs with lines. -/
def SMOOTHERR : ℚ := 1

/-! ### Python numbers and `str` rendering

`toTextFile` formats coordinates with Python's `str`.  Raster coordinates
are `int`s, DXF coordinates are `float`s; the two render differently, so
the embedding keeps the tag. -/

/-- A Python number as stored in a coordinate tuple: either an `int` or a
`float`.  Float values are modelled as exact rationals. -/
inductive PyNum
  | int (n : ℤ)
  | float (q : ℚ)
deriving DecidableEq, Repr

/-- Decimal digits of the fractional part `q` (with `0 ≤ q < 1`), at most
`fuel` digits, trailing zeros stopped at exactness. -/
def fracDigitStr : ℕ → ℚ → String
  | 0, _ => ""
  | fuel + 1, q =>
    if q = 0 then ""
    else
      let d : ℤ := (q * 10).floor
      toString d ++ fracDigitStr fuel (q * 10 - (d : ℚ))

/-- CPython `str` on a nonnegative, non-integral float rendered in plain
decimal notation (the range this program produces). -/
def pyPosFloatStr (q : ℚ) : String :=
  toString q.floor ++ "." ++ fracDigitStr 17 (q - (q.floor : ℚ))

/-- CPython `str` on a float: an integral value `n` renders as `"n.0"`;
other values render in plain decimal notation (modelled exactly for
terminating decimals, the range this program produces). -/
def pyFloatStr (q : ℚ) : String :=
  if q.den = 1 then toString q.num ++ ".0"
  else if q < 0 then "-" ++ pyPosFloatStr (-q)
  else pyPosFloatStr q

/-- CPython `str` on a coordinate value. -/
def pyStr : PyNum → String
  | .int n => toString n
  | .float q => pyFloatStr q

/-- Python `v % 1.0 == 0`: the test `toTextFile` uses for integrality. -/
def pyIsIntegral : PyNum → Bool
  | .int _ => true
  | .float q => q.den = 1

/-! ### GCodeEmitter: `toTextFile` (main.py lines 93-143)

The emitted file is modelled as its list of text lines; the actual file
content is the lines joined with `"\n"` (the final `"X0. Y0.\nM2"` write
carries no trailing newline). -/

/-- A coordinate tuple `(x, y)` as fed to `toTextFile`. -/
abbrev Coord := PyNum × PyNum

/-- Lines 119-128: the rendered token for one axis value — append a
decimal point when `value % 1.0 == 0`. -/
def axisStr (v : PyNum) : String :=
  if pyIsIntegral v then pyStr v ++ "." else pyStr v

/-- Line 131: the positioning line `"X<val> Y<val>"` for one coordinate. -/
def coordLine (c : Coord) : String :=
  "X" ++ axisStr c.1 ++ " Y" ++ axisStr c.2

/-- Lines 118-136: the inner loop of `toTextFile` over one shape's
coordinates, threading the pen state `up`; returns the emitted lines and
the final pen state. -/
def emitCoords : Bool → List Coord → List String × Bool
  | up, [] => ([], up)
  | up, c :: rest =>
    if up then
      let r := emitCoords false rest
      (coordLine c :: "Z0." :: r.1, r.2)
    else
      let r := emitCoords up rest
      (coordLine c :: r.1, r.2)

/-- Lines 117-139: the outer loop of `toTextFile` over the shapes; after
each shape a `"Z1."` retract line is written and the pen state is reset
to up. -/
def emitShapes : Bool → List (List Coord) → List String
  | _, [] => []
  | up, shape :: rest => (emitCoords up shape).1 ++ ["Z1."] ++ emitShapes true rest

/-- `toTextFile` (lines 93-143), as the list of lines written to the file:
preamble, rapid move to the origin, the per-shape lines, the final return
to the origin and the `M2` program end. -/
def toTextFile (shapes : List (List Coord)) : List String :=
  "G17 G21 G90 G54" :: "G00 X0. Y0." :: (emitShapes true shapes ++ ["X0. Y0.", "M2"])

/-- The text content of the file written by `toTextFile`: its lines joined
by newlines (the last write, `"X0. Y0.\nM2"`, has no trailing newline). -/
def toTextFileContent (shapes : List (List Coord)) : String :=
  String.intercalate "\n" (toTextFile shapes)

/-! ### GCodeAligner: `g_code_allignment` (main.py lines 647-666)

`g_code_allignment` works on raw text: it splits on `'\n'`, rewrites the
lines, and joins with `'\n'`.  The splitting/joining is modelled on
`List Char` so that its interaction can be reasoned about exactly. -/

/-- Python `str.split('\n')` on a character list. -/
def splitOnNl : List Char → List (List Char)
  | [] => [[]]
  | c :: rest =>
    let r := splitOnNl rest
    if c = '\n' then [] :: r
    else (c :: r.headD []) :: r.tail

/-- Python `'\n'.join` on character-list lines. -/
def joinLines : List (List Char) → List Char
  | [] => []
  | [a] => a
  | a :: b :: rest => a ++ '\n' :: joinLines (b :: rest)

/-- Lines 651-663: the scan of `g_code_allignment` over the split lines,
threading `pen_up`: `Z0`/`Z1` lines set the state and are dropped, `X`
lines are kept with a `G00 `/`G01 ` code, everything else is dropped. -/
def alignCore : Bool → List (List Char) → List (List Char)
  | _, [] => []
  | penUp, l :: rest =>
    if ['Z', '0'].isPrefixOf l then alignCore false rest
    else if ['Z', '1'].isPrefixOf l then alignCore true rest
    else if ['X'].isPrefixOf l then
      ((if penUp then "G00 ".toList else "G01 ".toList) ++ l) :: alignCore penUp rest
    else alignCore penUp rest

/-- `g_code_allignment` (lines 647-666): the framed, motion-coded rewrite
of a Z-axis G-code program.  The output list opens with `'G00 X0. Y0.'`
and closes with `"G00 X0. Y0.\n"` before joining, exactly as in the
source. -/
def g_code_allignment (g : String) : String :=
  String.mk (joinLines ("G00 X0. Y0.".toList ::
    (alignCore true (splitOnNl g.toList) ++ ["G00 X0. Y0.\n".toList])))

/-- The unit-square example shape list of §8 of the spec,
`[[(0,0),(1,0),(1,1),(0,0)]]`, with raster-style `int` coordinates. -/
def squareShape : List (List Coord) :=
  [[(.int 0, .int 0), (.int 1, .int 0), (.int 1, .int 1), (.int 0, .int 0)]]

example : toTextFile squareShape =
    ["G17 G21 G90 G54", "G00 X0. Y0.", "X0. Y0.", "Z0.", "X1. Y0.",
     "X1. Y1.", "X0. Y0.", "Z1.", "X0. Y0.", "M2"] := by decide

example : g_code_allignment (toTextFileContent squareShape) =
    "G00 X0. Y0.\nG00 X0. Y0.\nG01 X1. Y0.\nG01 X1. Y1.\nG01 X0. Y0.\nG00 X0. Y0.\nG00 X0. Y0.\n" := by
  decide

/-! ### PathSimplifier: `smoothRasterCoords` (main.py lines 414-496)

Machine-float coordinates are embedded as exact rationals.  The real
comparison `linePointDist m b p >= SMOOTHERR`, i.e.
`|m*px - py + b| / sqrt (m^2+1) >= SMOOTHERR`, is translated by squaring
both (nonnegative) sides, which keeps it inside ℚ. -/

/-- A 2D coordinate with rational components. -/
abbrev QPoint := ℚ × ℚ

/-- Lines 452-488: the `canDel` test for the pair `(i, j)`: every point
strictly between them is within `SMOOTHERR` of the line through points `i`
and `j`; when that line is vertical (Python's `ZeroDivisionError` branch,
lines 475-488) the horizontal distance is used instead. -/
def canDel (s : List QPoint) (i j : ℕ) : Bool :=
  let a := s.getD i (0, 0)
  let c := s.getD j (0, 0)
  let mids := (s.drop (i + 1)).take (j - (i + 1))
  if c.1 - a.1 = 0 then
    mids.all fun p => decide (|a.1 - p.1| < SMOOTHERR)
  else
    let m := (c.2 - a.2) / (c.1 - a.1)
    let b := a.2 - m * a.1
    mids.all fun p => decide ((m * p.1 - p.2 + b) ^ 2 < (m ^ 2 + 1) * SMOOTHERR ^ 2)

/-- Lines 447-489: the inner `while j > i + 1` loop, scanning `j`
downwards; on a successful `canDel` the pair of endpoints is appended to
the accumulator and `i` jumps to `j` (after which the loop exits).
Returns the grown accumulator and the final `i`. -/
def innerScan (s : List QPoint) : ℕ → ℕ → List QPoint → List QPoint × ℕ
  | i, 0, acc => (acc, i)
  | i, j + 1, acc =>
    if j + 1 > i + 1 then
      if canDel s i (j + 1) then
        innerScan s (j + 1) j (acc ++ [s.getD i (0, 0), s.getD (j + 1) (0, 0)])
      else innerScan s i j acc
    else (acc, i)

theorem innerScan_le (s : List QPoint) :
    ∀ j i acc, i ≤ (innerScan s i j acc).2 := by
  intro j
  induction j with
  | zero => intro i acc; simp [innerScan]
  | succ j ih =>
    intro i acc
    simp only [innerScan]
    split
    · split
      · exact le_trans (by omega) (ih (j + 1) _)
      · exact ih i acc
    · exact le_rfl

/-- Lines 443-490: the outer `while i < len(coords[s]) - 2` loop. -/
def outerScan (s : List QPoint) (i : ℕ) (acc : List QPoint) : List QPoint :=
  if h : i < s.length - 2 then
    let r := innerScan s i (s.length - 1) acc
    outerScan s (r.2 + 1) r.1
  else acc
termination_by s.length - i
decreasing_by
  have := innerScan_le s (s.length - 1) i acc
  omega

/-- Lines 434-494: `smoothRasterCoords` restricted to a single shape:
shapes of length ≤ 2 are copied unchanged (line 439-441), and a shape
whose scan produced nothing falls back to the original (line 493-494). -/
def smoothShape (s : List QPoint) : List QPoint :=
  if s.length ≤ 2 then s
  else
    let nc := outerScan s 0 []
    if nc.length = 0 then s else nc

/-- `smoothRasterCoords` (lines 414-496): per-shape greedy simplification. -/
def smoothRasterCoords (coords : List (List QPoint)) : List (List QPoint) :=
  coords.map smoothShape


/-! ### DXFPathReader: `readFromDXF` (main.py lines 294-349) and
`scale` (lines 373-411)

The DXF text is modelled as the list of its lines (as produced by
`readlines`, shown without the trailing `"\n"` every line carries).
Python exceptions — `IndexError` on a dangling group code, `ValueError`
from `float`, `NameError` when a `20` record appears before any `10`,
`ZeroDivisionError`/`ValueError` inside `scale` — surface as `none`. -/

/-- The numeric value of a nonempty list of decimal digit characters. -/
def digitListVal (cs : List Char) : Option ℕ :=
  if cs = [] then none
  else if cs.all (·.isDigit) then
    some (cs.foldl (fun a c => a * 10 + (c.toNat - 48)) 0)
  else none

/-- Python `str.strip()`: drop whitespace from both ends. -/
def stripStr (s : String) : String :=
  String.mk (((s.toList.dropWhile Char.isWhitespace).reverse.dropWhile
    Char.isWhitespace).reverse)

/-- Python `float(s)` on plain decimal literals (optional sign, integer
digits, optional fractional digits); anything else is `none`
(`ValueError`).  `float` strips surrounding whitespace first. -/
def pyFloat (s : String) : Option ℚ :=
  let t := (stripStr s).toList
  let (sign, body) : ℚ × List Char :=
    match t with
    | '-' :: r => (-1, r)
    | '+' :: r => (1, r)
    | r => (1, r)
  let ip := body.takeWhile (fun c => c ≠ '.')
  let rest := body.dropWhile (fun c => c ≠ '.')
  match rest with
  | [] =>
    match digitListVal ip with
    | some n => some (sign * n)
    | none => none
  | _ :: fp =>
    if ip.all (·.isDigit) ∧ fp.all (·.isDigit) ∧ (ip ≠ [] ∨ fp ≠ []) then
      let ipv : ℕ := ip.foldl (fun a c => a * 10 + (c.toNat - 48)) 0
      let fpv : ℕ := fp.foldl (fun a c => a * 10 + (c.toNat - 48)) 0
      some (sign * ((ipv : ℚ) + (fpv : ℚ) / (10 : ℚ) ^ fp.length))
    else none


/-- The mutable locals of the `readFromDXF` scan loop (lines 306-314):
`segment` counts `POLYLINE` records (starting at `-1`), `path` is the
shape list built so far, `xold`/`yold` remember the last captured
coordinate (initially the non-float `[]`, modelled as `none` — it never
compares equal to a float), `x` is the pending X value (unset until the
first `10` record), and `polyline`/`vertex` are the capture flags. -/
structure DxfState where
  segment : ℤ
  path : List (List QPoint)
  xold : Option ℚ
  yold : Option ℚ
  x : Option ℚ
  polyline : Bool
  vertex : Bool

/-- `path[segment].append(pt)` (line 336): `segment` always indexes the
last shape, since each `POLYLINE` appends a shape and increments it. -/
def appendAtSeg (path : List (List QPoint)) (seg : ℤ) (pt : QPoint) : List (List QPoint) :=
  path.set seg.toNat (path.getD seg.toNat [] ++ [pt])

/-- Lines 317-344: the forward scan of `readFromDXF` over the DXF lines.
A `10`/`20` group code (with capture active) also consumes the following
value line. -/
def parseLoop : DxfState → List String → Option (List (List QPoint))
  | s, [] => some s.path
  | s, l :: rest =>
    if l = "POLYLINE" then
      parseLoop { s with segment := s.segment + 1, polyline := true,
                         path := s.path ++ [[]] } rest
    else if l = "VERTEX" then
      parseLoop { s with vertex := true } rest
    else if stripStr l = "10" ∧ s.vertex ∧ s.polyline then
      match rest with
      | [] => none
      | v :: rest' =>
        match pyFloat v with
        | none => none
        | some xv => parseLoop { s with x := some xv } rest'
    else if stripStr l = "20" ∧ s.vertex ∧ s.polyline then
      match rest with
      | [] => none
      | v :: rest' =>
        match pyFloat v with
        | none => none
        | some yv =>
          match s.x with
          | none => none
          | some xv =>
            if some xv ≠ s.xold ∨ some yv ≠ s.yold then
              parseLoop { s with path := appendAtSeg s.path s.segment (xv, yv),
                                 xold := some xv, yold := some yv } rest'
            else parseLoop s rest'
    else if l = "SEQEND" then
      parseLoop { s with polyline := false, vertex := false } rest
    else parseLoop s rest

/-- The parsing phase of `readFromDXF` (lines 306-344), before rescaling. -/
def parseDXF (lines : List String) : Option (List (List QPoint)) :=
  parseLoop ⟨-1, [], none, none, none, false, false⟩ lines

/-- The x coordinates of every point of every shape (lines 389-391). -/
def coordsX (path : List (List QPoint)) : List ℚ :=
  (path.flatMap id).map Prod.fst

/-- The y coordinates of every point of every shape (lines 389-392). -/
def coordsY (path : List (List QPoint)) : List ℚ :=
  (path.flatMap id).map Prod.snd

/-- Python `max` over a list (`ValueError`, i.e. `none`, when empty). -/
def foldMax : List ℚ → Option ℚ
  | [] => none
  | a :: l => some (l.foldl max a)

/-- Python `min` over a list (`ValueError`, i.e. `none`, when empty). -/
def foldMin : List ℚ → Option ℚ
  | [] => none
  | a :: l => some (l.foldl min a)

/-- `scale` (lines 373-411): rescale every coordinate by
`IMDIM / (max(maxx, maxy) + min(minx, miny))`.  `none` models the
`ValueError` on an empty coordinate list and the `ZeroDivisionError` when
the computed size is zero. -/
def scale (path : List (List QPoint)) : Option (List (List QPoint)) :=
  match foldMax (coordsX path), foldMax (coordsY path),
        foldMin (coordsX path), foldMin (coordsY path) with
  | some maxx, some maxy, some minx, some miny =>
    let margin := min minx miny
    let size := max maxx maxy + margin
    if size = 0 then none
    else
      let k := (IMDIM : ℚ) / size
      some (path.map fun sh => sh.map fun c => (c.1 * k, c.2 * k))
  | _, _, _, _ => none

/-- `readFromDXF` (lines 294-349): parse, then rescale. -/
def readFromDXF (lines : List String) : Option (List (List QPoint)) :=
  (parseDXF lines).bind scale


/-! ### RasterContourTracer probe step: `nextPixelInShape`
(main.py lines 540-595)

The image is modelled as a total brightness-sum map on integer
coordinates; `getpixel` outside the `IMDIM × IMDIM` bounds raises
`IndexError`, which the source catches and treats as white (sum 765).
The Python function recurses without any bound (`sys.setrecursionlimit`
is raised to 10000 at line 18); the embedding makes the recursion depth
explicit as `fuel`, with `none` meaning "still probing after `fuel`
recursive calls". -/

/-- A raster image: channel-sum brightness at each in-bounds coordinate. -/
def PixelGrid : Type := ℤ → ℤ → ℕ

/-- `im.getpixel` with the source's `IndexError → white` handling:
out-of-bounds pixels read as `sum((255,255,255)) = 765`. -/
def pixelAt (im : PixelGrid) (p : ℤ × ℤ) : ℕ :=
  if 0 ≤ p.1 ∧ p.1 < (IMDIM : ℤ) ∧ 0 ≤ p.2 ∧ p.2 < (IMDIM : ℤ) then im p.1 p.2 else 765

/-- Lines 570-581: the neighbour of `px` in direction `direc`
(0 = right, 1 = up, 2 = left, 3 = down). -/
def dirStep (direc : ℤ) (px : ℤ × ℤ) : ℤ × ℤ :=
  if direc = 0 then (px.1 + 1, px.2)
  else if direc = 1 then (px.1, px.2 + 1)
  else if direc = 2 then (px.1 - 1, px.2)
  else (px.1, px.2 - 1)

/-- `nextPixelInShape` (lines 540-595) with the call-recursion made
explicit: rotate the direction by the colour of the current pixel, step,
and either commit the stepped-to pixel if it is dark (returning it with
the updated direction and `done` list) or recurse from the white
neighbour.  `none` means the probe has not committed within `fuel`
recursive calls — the Python original would still be recursing. -/
def nextPixelInShape (im : PixelGrid) :
    ℕ → ℤ × ℤ → ℤ → List (ℤ × ℤ) → Option ((ℤ × ℤ) × ℤ × List (ℤ × ℤ))
  | 0, _, _, _ => none
  | fuel + 1, px, direc, done_ =>
    let pixel := pixelAt im px
    let direc' := if pixel < 381 then (direc - 1) % 4 else (direc + 1) % 4
    let q := dirStep direc' px
    if pixelAt im q < 381 then
      some (q, direc', if q ∈ done_ then done_ else done_ ++ [q])
    else nextPixelInShape im fuel q direc' done_

/-! ### File dispatch: `imToPaths` (main.py lines 352-370) -/

/-- The three branches of `imToPaths`: delegate to the raster tracer, to
the DXF reader, or silently return the placeholder shape `[[(0, 0)]]`. -/
inductive ImToPathsChoice
  | raster
  | dxf
  | placeholderShape (coords : List (List (ℤ × ℤ)))
deriving DecidableEq, Repr

/-- Python `str.endswith`. -/
def endsWithStr (s suff : String) : Bool :=
  suff.toList.isSuffixOf s.toList

/-- The extension dispatch of `imToPaths` (lines 362-370). -/
def imToPathsDispatch (filename : String) : ImToPathsChoice :=
  if endsWithStr filename ".jpg" ∨ endsWithStr filename ".jpeg" ∨
      endsWithStr filename ".png" ∨ endsWithStr filename ".bmp" then .raster
  else if endsWithStr filename ".dxf" then .dxf
  else .placeholderShape [[(0, 0)]]

example : imToPathsDispatch "pic_1.png" = .raster := by decide
example : imToPathsDispatch "drawing.txt" = .placeholderShape [[(0, 0)]] := by decide

/-! ## Lemmas about the emitter -/

/-- The per-shape line block `toTextFile` produces, as §4.5 of the spec
describes it: each coordinate line, the pen-down marker immediately after
the first coordinate, the pen-up marker after the last; an empty shape
contributes only the pen-up marker. -/
def shapeBlock : List Coord → List String
  | [] => ["Z1."]
  | c :: rest => coordLine c :: "Z0." :: (rest.map coordLine ++ ["Z1."])

theorem emitCoords_false (l : List Coord) :
    emitCoords false l = (l.map coordLine, false) := by
  induction l with
  | nil => rfl
  | cons c rest ih => simp [emitCoords, ih]

theorem emitShapes_eq_flatMap (shapes : List (List Coord)) :
    emitShapes true shapes = shapes.flatMap shapeBlock := by
  induction shapes with
  | nil => rfl
  | cons sh rest ih =>
    cases sh with
    | nil => simpa [emitShapes, emitCoords, shapeBlock] using ih
    | cons c cs =>
      simp [emitShapes, emitCoords, emitCoords_false, shapeBlock, ih]

theorem coordLine_head (c : Coord) : ∃ r, (coordLine c).data = 'X' :: r := by
  refine ⟨(axisStr c.1).data ++ (' ' :: 'Y' :: (axisStr c.2).data), ?_⟩
  show (("X" ++ axisStr c.1 ++ " Y") ++ axisStr c.2).data = _
  simp [String.data_append]

theorem coordLine_ne_Z0 (c : Coord) : coordLine c ≠ "Z0." := by
  intro h
  obtain ⟨r, hr⟩ := coordLine_head c
  have := congrArg String.data h
  rw [hr] at this
  simp at this

theorem coordLine_ne_Z1 (c : Coord) : coordLine c ≠ "Z1." := by
  intro h
  obtain ⟨r, hr⟩ := coordLine_head c
  have := congrArg String.data h
  rw [hr] at this
  simp at this

theorem count_shapeBlock_le (shapes : List (List Coord)) :
    (shapes.flatMap shapeBlock).count "Z0." ≤ (shapes.flatMap shapeBlock).count "Z1." ∧
    ([] ∈ shapes →
      (shapes.flatMap shapeBlock).count "Z0." < (shapes.flatMap shapeBlock).count "Z1.") := by
  induction shapes with
  | nil => simp
  | cons sh rest ih =>
    have hblock : (shapeBlock sh).count "Z0." ≤ 1 ∧ (shapeBlock sh).count "Z1." = 1 ∧
        (sh = [] → (shapeBlock sh).count "Z0." = 0) := by
      cases sh with
      | nil => refine ⟨by decide, by decide, fun _ => by decide⟩
      | cons c cs =>
        have h0 : ("Z0." : String) ∉ cs.map coordLine := by
          intro hmem
          obtain ⟨c', _, hc'⟩ := List.mem_map.mp hmem
          exact coordLine_ne_Z0 c' hc'
        have h1 : ("Z1." : String) ∉ cs.map coordLine := by
          intro hmem
          obtain ⟨c', _, hc'⟩ := List.mem_map.mp hmem
          exact coordLine_ne_Z1 c' hc'
        refine ⟨?_, ?_, fun hcs => by simp at hcs⟩
        · simp [shapeBlock, List.count_cons, List.count_append,
            List.count_eq_zero.mpr h0, coordLine_ne_Z0 c]
        · simp [shapeBlock, List.count_cons, List.count_append,
            List.count_eq_zero.mpr h1, coordLine_ne_Z1 c, coordLine_ne_Z0 c]
    constructor
    · simp only [List.flatMap_cons, List.count_append]
      omega
    · intro hmem
      simp only [List.flatMap_cons, List.count_append]
      rcases List.mem_cons.mp hmem with hsh | hrest
      · have := hblock.2.2 hsh.symm
        omega
      · have := ih.2 hrest
        omega

/-! ## Claim theorems for the emitter and aligner -/

/-- C4: `toTextFile` on the shape list `[[(0,0),(1,0),(1,1),(0,0)]]`
emits exactly: preamble, rapid move to the origin, `X0. Y0.`, pen-down,
`X1. Y0.`, `X1. Y1.`, `X0. Y0.`, pen-up, the final move to the origin and
the `M2` program end; and in general every shape's block carries the
pen-down marker immediately after its first coordinate line and the
pen-up marker after its last. -/
theorem toTextFile_square_and_pen_markers :
    toTextFile squareShape =
      ["G17 G21 G90 G54", "G00 X0. Y0.", "X0. Y0.", "Z0.", "X1. Y0.",
       "X1. Y1.", "X0. Y0.", "Z1.", "X0. Y0.", "M2"] ∧
    ∀ shapes : List (List Coord),
      toTextFile shapes =
        "G17 G21 G90 G54" :: "G00 X0. Y0." ::
          (shapes.flatMap shapeBlock ++ ["X0. Y0.", "M2"]) := by
  refine ⟨by decide, fun shapes => ?_⟩
  rw [toTextFile, emitShapes_eq_flatMap]

/-- C10: a `ShapeList` containing an empty polyline produces, for that
shape, the bare pen-up line `"Z1."` — no positioning line, no preceding
pen-down — so the emitted program has strictly fewer pen-down markers
than pen-up markers. -/
theorem toTextFile_empty_shape_unbalanced (shapes : List (List Coord))
    (h : [] ∈ shapes) :
    shapeBlock ([] : List Coord) = ["Z1."] ∧
    toTextFile shapes =
      "G17 G21 G90 G54" :: "G00 X0. Y0." ::
        (shapes.flatMap shapeBlock ++ ["X0. Y0.", "M2"]) ∧
    (toTextFile shapes).count "Z0." < (toTextFile shapes).count "Z1." := by
  have hchar : toTextFile shapes =
      "G17 G21 G90 G54" :: "G00 X0. Y0." ::
        (shapes.flatMap shapeBlock ++ ["X0. Y0.", "M2"]) := by
    rw [toTextFile, emitShapes_eq_flatMap]
  refine ⟨rfl, hchar, ?_⟩
  have hchar' : toTextFile shapes =
      ["G17 G21 G90 G54", "G00 X0. Y0."] ++
        (shapes.flatMap shapeBlock ++ ["X0. Y0.", "M2"]) := hchar
  rw [hchar']
  have := (count_shapeBlock_le shapes).2 h
  simp only [List.count_append]
  have h1 : (["G17 G21 G90 G54", "G00 X0. Y0."] : List String).count "Z0." = 0 := by decide
  have h2 : (["G17 G21 G90 G54", "G00 X0. Y0."] : List String).count "Z1." = 0 := by decide
  have h3 : (["X0. Y0.", "M2"] : List String).count "Z0." = 0 := by decide
  have h4 : (["X0. Y0.", "M2"] : List String).count "Z1." = 0 := by decide
  omega

/-- C10 witness: the concrete shape list `[[]]`. -/
theorem toTextFile_empty_shape_unbalanced_witness :
    ([] : List Coord) ∈ ([[]] : List (List Coord)) ∧
    (shapeBlock ([] : List Coord) = ["Z1."] ∧
     toTextFile [[]] =
       "G17 G21 G90 G54" :: "G00 X0. Y0." ::
         (([[]] : List (List Coord)).flatMap shapeBlock ++ ["X0. Y0.", "M2"]) ∧
     (toTextFile [[]]).count "Z0." < (toTextFile [[]]).count "Z1.") :=
  ⟨by decide, toTextFile_empty_shape_unbalanced [[]] (by decide)⟩

/-- C2 counterexample: the integral value 3 *stored as a float* renders
as `"3.0."` (Python's `str(3.0)` is `"3.0"`, and the code appends another
point), not as `"3."` as the claim states for every storage. -/
theorem axisStr_float_integral_cex :
    axisStr (PyNum.float 3) = "3.0." ∧ axisStr (PyNum.float 3) ≠ "3." := by
  constructor
  · show (if pyIsIntegral (PyNum.float 3) then pyStr (PyNum.float 3) ++ "." else _) = _
    have hint : pyIsIntegral (PyNum.float 3) = true := by decide
    rw [hint, if_pos rfl]
    show pyFloatStr 3 ++ "." = "3.0."
    rw [pyFloatStr, if_pos (by decide : (3 : ℚ).den = 1)]
    decide
  · intro h
    have h3 : axisStr (PyNum.float 3) = "3.0." := by
      show (if pyIsIntegral (PyNum.float 3) then pyStr (PyNum.float 3) ++ "." else _) = _
      have hint : pyIsIntegral (PyNum.float 3) = true := by decide
      rw [hint, if_pos rfl]
      show pyFloatStr 3 ++ "." = "3.0."
      rw [pyFloatStr, if_pos (by decide : (3 : ℚ).den = 1)]
      decide
    rw [h3] at h
    exact absurd h (by decide)

/-- C2 (amended): an axis value stored as an `int` renders as the
integer's digits followed by exactly one `'.'`; an integral value stored
as a `float` renders as Python's float repr (digits then `".0"`) followed
by another `'.'`, e.g. `3.0` renders as `"3.0."`. -/
theorem axisStr_integral_format :
    (∀ n : ℤ, axisStr (PyNum.int n) = toString n ++ ".") ∧
    (∀ q : ℚ, q.den = 1 → axisStr (PyNum.float q) = toString q.num ++ ".0.") := by
  constructor
  · intro n
    rfl
  · intro q hq
    show (if pyIsIntegral (PyNum.float q) then pyStr (PyNum.float q) ++ "." else _) = _
    have hint : pyIsIntegral (PyNum.float q) = true := by
      show decide (q.den = 1) = true
      simp [hq]
    rw [hint, if_pos rfl]
    show pyFloatStr q ++ "." = _
    rw [pyFloatStr, if_pos hq, String.append_assoc]
    rfl

/-- C2 witness: the amended statement at `n = 3` and `q = 3`. -/
theorem axisStr_integral_format_witness :
    axisStr (PyNum.int 3) = toString (3 : ℤ) ++ "." ∧
    (3 : ℚ).den = 1 ∧ axisStr (PyNum.float 3) = toString (3 : ℚ).num ++ ".0." :=
  ⟨axisStr_integral_format.1 3, by decide, axisStr_integral_format.2 3 (by decide)⟩

/-- C3 counterexample: the aligned program for the unit square is not the
six-line program the claim lists (with or without a trailing newline):
the emitted return-to-origin `X0. Y0.` before `M2` becomes an additional
`G00 X0. Y0.` line, so the output has seven motion lines. -/
theorem aligned_square_cex :
    g_code_allignment (toTextFileContent squareShape) ≠
      "G00 X0. Y0.\nG00 X0. Y0.\nG01 X1. Y0.\nG01 X1. Y1.\nG01 X0. Y0.\nG00 X0. Y0." ∧
    g_code_allignment (toTextFileContent squareShape) ≠
      "G00 X0. Y0.\nG00 X0. Y0.\nG01 X1. Y0.\nG01 X1. Y1.\nG01 X0. Y0.\nG00 X0. Y0.\n" := by
  constructor <;> decide

/-- C3 (amended): feeding the emitted program for
`[[(0,0),(1,0),(1,1),(0,0)]]` through `g_code_allignment` yields exactly,
in order: the framing rapid move to the origin, `G00 X0. Y0.` (the
shape's first point, pen still up), `G01 X1. Y0.`, `G01 X1. Y1.`,
`G01 X0. Y0.` (cut moves between pen-down and pen-up), `G00 X0. Y0.`
(the emitted return to the origin) and the trailing framing rapid move to
the origin (ending in a newline), with no `Z` line and no `M2` line. -/
theorem aligned_square_output :
    g_code_allignment (toTextFileContent squareShape) =
      "G00 X0. Y0.\nG00 X0. Y0.\nG01 X1. Y0.\nG01 X1. Y1.\nG01 X0. Y0.\nG00 X0. Y0.\nG00 X0. Y0.\n" := by
  decide

/-- C8: on an all-light image (every pixel white, channel sum 765) the
probe step of `nextPixelInShape` never commits a pixel: for every
recursion budget `fuel`, from every start pixel and direction, the
function is still probing when the budget runs out.  The Python original
has no bound at all — it relies on `sys.setrecursionlimit(10000)` and
dies with a `RecursionError`, never raising a `TracingStalled` error as
the claim requires. -/
theorem nextPixelInShape_unbounded_probe :
    ∀ (fuel : ℕ) (px : ℤ × ℤ) (direc : ℤ) (done_ : List (ℤ × ℤ)),
      nextPixelInShape (fun _ _ => 765) fuel px direc done_ = none := by
  intro fuel
  induction fuel with
  | zero => intro px direc done_; rfl
  | succ n ih =>
    intro px direc done_
    show (if pixelAt (fun _ _ => 765) _ < 381 then _ else _) = none
    have hpx : ∀ p : ℤ × ℤ, pixelAt (fun _ _ => 765) p = 765 := by
      intro p
      unfold pixelAt
      split <;> rfl
    rw [hpx]
    rw [if_neg (by omega)]
    exact ih _ _ _

/-- C9: `imToPaths` on a filename with an unsupported extension does not
fail with a `FormatError`: it silently returns the placeholder
single-point shape `[[(0, 0)]]` (main.py lines 367-368). -/
theorem imToPathsDispatch_placeholder :
    imToPathsDispatch "drawing.txt" = ImToPathsChoice.placeholderShape [[(0, 0)]] ∧
    imToPathsDispatch "drawing.txt" ≠ ImToPathsChoice.raster ∧
    imToPathsDispatch "drawing.txt" ≠ ImToPathsChoice.dxf := by
  refine ⟨by decide, by decide, by decide⟩

/-! ## Lemmas about `splitOnNl`, `joinLines` and the aligner -/

theorem splitOnNl_ne_nil (s : List Char) : splitOnNl s ≠ [] := by
  cases s with
  | nil => simp [splitOnNl]
  | cons c rest =>
    simp only [splitOnNl]
    split <;> simp

theorem mem_splitOnNl_no_nl (s : List Char) :
    ∀ l ∈ splitOnNl s, '\n' ∉ l := by
  induction s with
  | nil =>
    intro l hl
    simp [splitOnNl] at hl
    simp [hl]
  | cons c rest ih =>
    intro l hl
    simp only [splitOnNl] at hl
    by_cases hc : c = '\n'
    · rw [if_pos hc] at hl
      rcases List.mem_cons.mp hl with h | h
      · simp [h]
      · exact ih l h
    · rw [if_neg hc] at hl
      rcases List.mem_cons.mp hl with h | h
      · subst h
        intro hmem
        rcases List.mem_cons.mp hmem with h' | h'
        · exact hc h'.symm
        · have hhead : (splitOnNl rest).headD [] ∈ splitOnNl rest := by
            cases hsp : splitOnNl rest with
            | nil => exact absurd hsp (splitOnNl_ne_nil rest)
            | cons a t => simp
          exact ih _ hhead h'
      · have : l ∈ splitOnNl rest := List.mem_of_mem_tail h
        exact ih l this

theorem splitOnNl_no_nl (a : List Char) (h : '\n' ∉ a) : splitOnNl a = [a] := by
  induction a with
  | nil => rfl
  | cons c rest ih =>
    have hc : c ≠ '\n' := by
      intro hc
      exact h (by simp [hc])
    have hrest : '\n' ∉ rest := by
      intro hmem
      exact h (List.mem_cons_of_mem _ hmem)
    simp [splitOnNl, hc, ih hrest]

theorem splitOnNl_append_nl (a t : List Char) (h : '\n' ∉ a) :
    splitOnNl (a ++ '\n' :: t) = a :: splitOnNl t := by
  induction a with
  | nil => simp [splitOnNl]
  | cons c rest ih =>
    have hc : c ≠ '\n' := by
      intro hc
      exact h (by simp [hc])
    have hrest : '\n' ∉ rest := by
      intro hmem
      exact h (List.mem_cons_of_mem _ hmem)
    simp [splitOnNl, hc, ih hrest]

theorem splitOnNl_joinLines (ls : List (List Char)) (hnl : ∀ l ∈ ls, '\n' ∉ l)
    (hne : ls ≠ []) : splitOnNl (joinLines ls) = ls := by
  induction ls with
  | nil => exact absurd rfl hne
  | cons a rest ih =>
    cases rest with
    | nil => exact splitOnNl_no_nl a (hnl a (by simp))
    | cons b t =>
      show splitOnNl (a ++ '\n' :: joinLines (b :: t)) = _
      rw [splitOnNl_append_nl _ _ (hnl a (by simp))]
      rw [ih (fun l hl => hnl l (List.mem_cons_of_mem _ hl)) (by simp)]

theorem alignCore_mem (ls : List (List Char)) :
    ∀ (b : Bool) (l : List Char), l ∈ alignCore b ls →
      ∃ l' ∈ ls, l = "G00 ".toList ++ l' ∨ l = "G01 ".toList ++ l' := by
  induction ls with
  | nil => intro b l hl; simp [alignCore] at hl
  | cons x rest ih =>
    intro b l hl
    simp only [alignCore] at hl
    split at hl
    · obtain ⟨l', hl', hor⟩ := ih false l hl
      exact ⟨l', List.mem_cons_of_mem _ hl', hor⟩
    · split at hl
      · obtain ⟨l', hl', hor⟩ := ih true l hl
        exact ⟨l', List.mem_cons_of_mem _ hl', hor⟩
      · split at hl
        · rcases List.mem_cons.mp hl with h | h
          · cases b with
            | true => exact ⟨x, by simp, Or.inl (by simpa using h)⟩
            | false => exact ⟨x, by simp, Or.inr (by simpa using h)⟩
          · obtain ⟨l', hl', hor⟩ := ih b l h
            exact ⟨l', List.mem_cons_of_mem _ hl', hor⟩
        · obtain ⟨l', hl', hor⟩ := ih b l hl
          exact ⟨l', List.mem_cons_of_mem _ hl', hor⟩

theorem alignCore_drop_all (ls : List (List Char))
    (h : ∀ l ∈ ls, ¬ (['Z', '0'].isPrefixOf l) ∧ ¬ (['Z', '1'].isPrefixOf l) ∧
      ¬ (['X'].isPrefixOf l)) :
    ∀ b, alignCore b ls = [] := by
  induction ls with
  | nil => intro b; rfl
  | cons x rest ih =>
    intro b
    obtain ⟨h0, h1, hx⟩ := h x (by simp)
    have hrest := fun l hl => h l (List.mem_cons_of_mem _ hl)
    simp only [alignCore, if_neg h0, if_neg h1, if_neg hx]
    exact ih hrest b

theorem joinLines_snoc_nl (xs : List (List Char)) (y : List Char) :
    joinLines (xs ++ [y ++ ['\n']]) = joinLines (xs ++ [y, []]) := by
  induction xs with
  | nil => simp [joinLines]
  | cons x rest ih =>
    cases rest with
    | nil => simp [joinLines, ih]
    | cons z t => simp [joinLines, List.cons_append]; exact ih

theorem head_G_not_ZX (r : List Char) :
    ¬ (['Z', '0'].isPrefixOf ('G' :: r)) ∧ ¬ (['Z', '1'].isPrefixOf ('G' :: r)) ∧
    ¬ (['X'].isPrefixOf ('G' :: r)) := by
  refine ⟨?_, ?_, ?_⟩ <;> simp [List.isPrefixOf]

/-- C5 (amended): reapplying `g_code_allignment` to any program — in
particular to its own output — yields only the two framing rapid moves to
the origin: every line of an aligned program starts with `G`, so the
second pass drops them all instead of re-marking them; the pass is not
idempotent. -/
theorem realign_collapses (g : String) :
    g_code_allignment (g_code_allignment g) = "G00 X0. Y0.\nG00 X0. Y0.\n" := by
  apply String.ext
  show joinLines ("G00 X0. Y0.".toList ::
      (alignCore true (splitOnNl (g_code_allignment g).toList) ++
        ["G00 X0. Y0.\n".toList])) = _
  have hdata : (g_code_allignment g).toList =
      joinLines ("G00 X0. Y0.".toList ::
        (alignCore true (splitOnNl g.toList) ++ ["G00 X0. Y0.\n".toList])) := rfl
  have e1 : ("G00 X0. Y0.\n".toList : List Char) = "G00 X0. Y0.".toList ++ ['\n'] := by
    decide
  have e2 : "G00 X0. Y0.".toList ::
      (alignCore true (splitOnNl g.toList) ++ ["G00 X0. Y0.".toList ++ ['\n']]) =
      ("G00 X0. Y0.".toList :: alignCore true (splitOnNl g.toList)) ++
        ["G00 X0. Y0.".toList ++ ['\n']] := by
    simp
  have hsplit : splitOnNl (g_code_allignment g).toList =
      "G00 X0. Y0.".toList ::
        (alignCore true (splitOnNl g.toList) ++ ["G00 X0. Y0.".toList, []]) := by
    rw [hdata, e1, e2, joinLines_snoc_nl]
    have e3 : ("G00 X0. Y0.".toList :: alignCore true (splitOnNl g.toList)) ++
        ["G00 X0. Y0.".toList, []] =
        "G00 X0. Y0.".toList ::
          (alignCore true (splitOnNl g.toList) ++ ["G00 X0. Y0.".toList, []]) := by
      simp
    rw [e3, splitOnNl_joinLines]
    · intro l hl
      rcases List.mem_cons.mp hl with h | h
      · subst h; decide
      · rcases List.mem_append.mp h with h' | h'
        · obtain ⟨l', hl', hor⟩ := alignCore_mem _ true l h'
          have hnl' : '\n' ∉ l' := mem_splitOnNl_no_nl _ l' hl'
          rcases hor with h'' | h'' <;> subst h'' <;> intro hmem <;>
            rcases List.mem_append.mp hmem with hm | hm <;>
            first
            | exact absurd hm (by decide)
            | exact hnl' hm
        · rcases List.mem_cons.mp h' with h'' | h''
          · subst h''; decide
          · simp at h''
            simp [h'']
    · simp
  rw [hsplit]
  have hdrop : alignCore true ("G00 X0. Y0.".toList ::
      (alignCore true (splitOnNl g.toList) ++ ["G00 X0. Y0.".toList, []])) = [] := by
    apply alignCore_drop_all
    intro l hl
    rcases List.mem_cons.mp hl with h | h
    · subst h; exact head_G_not_ZX _
    · rcases List.mem_append.mp h with h' | h'
      · obtain ⟨l', _, hor⟩ := alignCore_mem _ true l h'
        rcases hor with h'' | h'' <;> subst h'' <;> exact head_G_not_ZX _
      · rcases List.mem_cons.mp h' with h'' | h''
        · subst h''; exact head_G_not_ZX _
        · simp at h''
          subst h''
          refine ⟨by decide, by decide, by decide⟩
  rw [hdrop]
  decide

/-- C5 counterexample: for the aligned unit-square program (which contains
the cut-move line `G01 X1. Y0.`), reapplying the aligner does not mark
that positioning line as a rapid move (`G00 X1. Y0.` is nowhere in the
second output): the line is dropped altogether. -/
theorem realign_cex :
    ("G01 X1. Y0.".toList ∈
      splitOnNl (g_code_allignment (toTextFileContent squareShape)).toList) ∧
    ¬ ("G00 X1. Y0.".toList ∈
      splitOnNl (g_code_allignment
        (g_code_allignment (toTextFileContent squareShape))).toList) := by
  constructor <;> decide

/-! ## Lemmas about `scale` -/

theorem le_foldl_max (l : List ℚ) : ∀ a : ℚ, a ≤ l.foldl max a ∧ ∀ x ∈ l, x ≤ l.foldl max a := by
  induction l with
  | nil => intro a; exact ⟨le_rfl, by simp⟩
  | cons b t ih =>
    intro a
    have hstep : List.foldl max a (b :: t) = t.foldl max (max a b) := rfl
    constructor
    · rw [hstep]
      exact le_trans (le_max_left a b) (ih (max a b)).1
    · intro x hx
      rw [hstep]
      rcases List.mem_cons.mp hx with h | h
      · subst h
        exact le_trans (le_max_right a x) (ih (max a x)).1
      · exact (ih (max a b)).2 x h

theorem foldl_max_mem (l : List ℚ) : ∀ a : ℚ, l.foldl max a = a ∨ l.foldl max a ∈ l := by
  induction l with
  | nil => intro a; exact Or.inl rfl
  | cons b t ih =>
    intro a
    have hstep : List.foldl max a (b :: t) = t.foldl max (max a b) := rfl
    rw [hstep]
    rcases ih (max a b) with h | h
    · rcases max_choice a b with hab | hab
      · exact Or.inl (h.trans hab)
      · exact Or.inr (by rw [h, hab]; simp)
    · exact Or.inr (List.mem_cons_of_mem _ h)

theorem foldl_min_le (l : List ℚ) : ∀ a : ℚ, l.foldl min a ≤ a ∧ ∀ x ∈ l, l.foldl min a ≤ x := by
  induction l with
  | nil => intro a; exact ⟨le_rfl, by simp⟩
  | cons b t ih =>
    intro a
    have hstep : List.foldl min a (b :: t) = t.foldl min (min a b) := rfl
    constructor
    · rw [hstep]
      exact le_trans (ih (min a b)).1 (min_le_left a b)
    · intro x hx
      rw [hstep]
      rcases List.mem_cons.mp hx with h | h
      · subst h
        exact le_trans (ih (min a x)).1 (min_le_right a x)
      · exact (ih (min a b)).2 x h

theorem foldl_min_mem (l : List ℚ) : ∀ a : ℚ, l.foldl min a = a ∨ l.foldl min a ∈ l := by
  induction l with
  | nil => intro a; exact Or.inl rfl
  | cons b t ih =>
    intro a
    have hstep : List.foldl min a (b :: t) = t.foldl min (min a b) := rfl
    rw [hstep]
    rcases ih (min a b) with h | h
    · rcases min_choice a b with hab | hab
      · exact Or.inl (h.trans hab)
      · exact Or.inr (by rw [h, hab]; simp)
    · exact Or.inr (List.mem_cons_of_mem _ h)

theorem foldMax_ge (l : List ℚ) (m : ℚ) (h : foldMax l = some m) : ∀ x ∈ l, x ≤ m := by
  cases l with
  | nil => simp [foldMax] at h
  | cons a t =>
    have hm : m = t.foldl max a := by
      simp [foldMax] at h
      exact h.symm
    intro x hx
    rw [hm]
    rcases List.mem_cons.mp hx with h' | h'
    · subst h'
      exact (le_foldl_max t x).1
    · exact (le_foldl_max t a).2 x h'

theorem foldMax_mem (l : List ℚ) (m : ℚ) (h : foldMax l = some m) : m ∈ l := by
  cases l with
  | nil => simp [foldMax] at h
  | cons a t =>
    have hm : m = t.foldl max a := by
      simp [foldMax] at h
      exact h.symm
    rcases foldl_max_mem t a with h' | h'
    · rw [hm, h']
      simp
    · rw [hm]
      exact List.mem_cons_of_mem _ h'

theorem foldMin_le (l : List ℚ) (m : ℚ) (h : foldMin l = some m) : ∀ x ∈ l, m ≤ x := by
  cases l with
  | nil => simp [foldMin] at h
  | cons a t =>
    have hm : m = t.foldl min a := by
      simp [foldMin] at h
      exact h.symm
    intro x hx
    rw [hm]
    rcases List.mem_cons.mp hx with h' | h'
    · subst h'
      exact (foldl_min_le t x).1
    · exact (foldl_min_le t a).2 x h'

theorem foldMin_mem (l : List ℚ) (m : ℚ) (h : foldMin l = some m) : m ∈ l := by
  cases l with
  | nil => simp [foldMin] at h
  | cons a t =>
    have hm : m = t.foldl min a := by
      simp [foldMin] at h
      exact h.symm
    rcases foldl_min_mem t a with h' | h'
    · rw [hm, h']
      simp
    · rw [hm]
      exact List.mem_cons_of_mem _ h'

theorem mem_coordsX (path : List (List QPoint)) (p : QPoint) (hp : p ∈ path.flatMap id) :
    p.1 ∈ coordsX path :=
  List.mem_map.mpr ⟨p, hp, rfl⟩

theorem mem_coordsY (path : List (List QPoint)) (p : QPoint) (hp : p ∈ path.flatMap id) :
    p.2 ∈ coordsY path :=
  List.mem_map.mpr ⟨p, hp, rfl⟩

/-- C7: whenever `scale` succeeds (nonempty coordinate list, nonzero
size), (a) if every input coordinate is nonnegative then every output
coordinate lies in `[0, IMDIM]`, and (b) for inputs with
`minX = minY = 0` and `maxX = maxY = 10` every output coordinate is at
most `IMDIM` and some output coordinate equals `IMDIM` exactly. -/
theorem scale_bounds (path out : List (List QPoint)) (h : scale path = some out) :
    ((∀ p ∈ path.flatMap id, 0 ≤ p.1 ∧ 0 ≤ p.2) →
      ∀ q ∈ out.flatMap id,
        0 ≤ q.1 ∧ q.1 ≤ (IMDIM : ℚ) ∧ 0 ≤ q.2 ∧ q.2 ≤ (IMDIM : ℚ)) ∧
    (foldMin (coordsX path) = some 0 → foldMin (coordsY path) = some 0 →
     foldMax (coordsX path) = some 10 → foldMax (coordsY path) = some 10 →
      (∀ q ∈ out.flatMap id, q.1 ≤ (IMDIM : ℚ) ∧ q.2 ≤ (IMDIM : ℚ)) ∧
      ∃ q ∈ out.flatMap id, q.1 = (IMDIM : ℚ) ∨ q.2 = (IMDIM : ℚ)) := by
  rw [scale] at h
  rcases hmx : foldMax (coordsX path) with _ | maxx
  · simp only [hmx] at h
    exact absurd h (by simp)
  rcases hmy : foldMax (coordsY path) with _ | maxy
  · simp only [hmx, hmy] at h
    exact absurd h (by simp)
  rcases hnx : foldMin (coordsX path) with _ | minx
  · simp only [hmx, hmy, hnx] at h
    exact absurd h (by simp)
  rcases hny : foldMin (coordsY path) with _ | miny
  · simp only [hmx, hmy, hnx, hny] at h
    exact absurd h (by simp)
  simp only [hmx, hmy, hnx, hny] at h
  by_cases hz : max maxx maxy + min minx miny = 0
  · rw [if_pos hz] at h
    exact absurd h (by simp)
  rw [if_neg hz] at h
  have hout : out = path.map fun sh => sh.map fun c =>
      (c.1 * ((IMDIM : ℚ) / (max maxx maxy + min minx miny)),
       c.2 * ((IMDIM : ℚ) / (max maxx maxy + min minx miny))) :=
    (Option.some.inj h).symm
  have hmem_out : ∀ q ∈ out.flatMap id, ∃ p ∈ path.flatMap id,
      q = (p.1 * ((IMDIM : ℚ) / (max maxx maxy + min minx miny)),
           p.2 * ((IMDIM : ℚ) / (max maxx maxy + min minx miny))) := by
    intro q hq
    rw [hout] at hq
    simp only [List.mem_flatMap, List.mem_map, id_eq] at hq
    obtain ⟨l, ⟨sh, hsh, rfl⟩, hql⟩ := hq
    obtain ⟨p, hp, rfl⟩ := List.mem_map.mp hql
    exact ⟨p, List.mem_flatMap.mpr ⟨sh, hsh, hp⟩, rfl⟩
  have hmem_in : ∀ p ∈ path.flatMap id,
      (p.1 * ((IMDIM : ℚ) / (max maxx maxy + min minx miny)),
       p.2 * ((IMDIM : ℚ) / (max maxx maxy + min minx miny))) ∈ out.flatMap id := by
    intro p hp
    obtain ⟨sh, hsh, hpsh⟩ := List.mem_flatMap.mp hp
    rw [hout]
    simp only [List.mem_flatMap, List.mem_map, id_eq]
    refine ⟨_, ⟨sh, hsh, rfl⟩, ?_⟩
    exact List.mem_map.mpr ⟨p, by simpa using hpsh, rfl⟩
  have hx_le : ∀ p ∈ path.flatMap id, p.1 ≤ maxx := by
    intro p hp
    exact foldMax_ge _ _ hmx _ (mem_coordsX path p hp)
  have hy_le : ∀ p ∈ path.flatMap id, p.2 ≤ maxy := by
    intro p hp
    exact foldMax_ge _ _ hmy _ (mem_coordsY path p hp)
  constructor
  · -- (a) nonnegative inputs stay within [0, IMDIM]
    intro hnn q hq
    obtain ⟨p, hp, rfl⟩ := hmem_out q hq
    obtain ⟨px, hpx, hpx1⟩ := List.mem_map.mp (foldMin_mem _ _ hnx)
    obtain ⟨py, hpy, hpy1⟩ := List.mem_map.mp (foldMin_mem _ _ hny)
    have hminx0 : 0 ≤ minx := hpx1 ▸ (hnn px hpx).1
    have hminy0 : 0 ≤ miny := hpy1 ▸ (hnn py hpy).2
    have hmargin0 : 0 ≤ min minx miny := le_min hminx0 hminy0
    obtain ⟨qx, hqx, hqx1⟩ := List.mem_map.mp (foldMax_mem _ _ hmx)
    have hmaxx0 : 0 ≤ maxx := hqx1 ▸ (hnn qx hqx).1
    have hsize_pos : 0 < max maxx maxy + min minx miny := by
      have : (0 : ℚ) ≤ max maxx maxy + min minx miny :=
        add_nonneg (le_trans hmaxx0 (le_max_left _ _)) hmargin0
      exact lt_of_le_of_ne this (Ne.symm hz)
    have hk_pos : 0 < (IMDIM : ℚ) / (max maxx maxy + min minx miny) := by
      apply div_pos _ hsize_pos
      norm_num [IMDIM]
    have hsize_mul : (max maxx maxy + min minx miny) *
        ((IMDIM : ℚ) / (max maxx maxy + min minx miny)) = (IMDIM : ℚ) := by
      field_simp
    have hb1 : p.1 ≤ max maxx maxy + min minx miny :=
      le_trans (le_trans (hx_le p hp) (le_max_left _ _)) (le_add_of_nonneg_right hmargin0)
    have hb2 : p.2 ≤ max maxx maxy + min minx miny :=
      le_trans (le_trans (hy_le p hp) (le_max_right _ _)) (le_add_of_nonneg_right hmargin0)
    refine ⟨mul_nonneg (hnn p hp).1 (le_of_lt hk_pos), ?_,
            mul_nonneg (hnn p hp).2 (le_of_lt hk_pos), ?_⟩
    · calc p.1 * ((IMDIM : ℚ) / (max maxx maxy + min minx miny))
          ≤ (max maxx maxy + min minx miny) *
            ((IMDIM : ℚ) / (max maxx maxy + min minx miny)) :=
            mul_le_mul_of_nonneg_right hb1 (le_of_lt hk_pos)
        _ = (IMDIM : ℚ) := hsize_mul
    · calc p.2 * ((IMDIM : ℚ) / (max maxx maxy + min minx miny))
          ≤ (max maxx maxy + min minx miny) *
            ((IMDIM : ℚ) / (max maxx maxy + min minx miny)) :=
            mul_le_mul_of_nonneg_right hb2 (le_of_lt hk_pos)
        _ = (IMDIM : ℚ) := hsize_mul
  · -- (b) the concrete extremes 0 / 10
    intro h1 h2 h3 h4
    have hminx : minx = 0 := Option.some.inj h1
    have hminy : miny = 0 := Option.some.inj h2
    have hmaxx : maxx = 10 := Option.some.inj h3
    have hmaxy : maxy = 10 := Option.some.inj h4
    subst hminx hminy hmaxx hmaxy
    have hsize : max (10 : ℚ) 10 + min (0 : ℚ) 0 = 10 := by norm_num
    have hIM : (IMDIM : ℚ) = 305 := by norm_num [IMDIM]
    have hk : (IMDIM : ℚ) / (max (10 : ℚ) 10 + min (0 : ℚ) 0) = 305 / 10 := by
      rw [hsize, hIM]
    constructor
    · intro q hq
      obtain ⟨p, hp, rfl⟩ := hmem_out q hq
      have b1 : p.1 * ((IMDIM : ℚ) / (max (10 : ℚ) 10 + min (0 : ℚ) 0)) ≤ (IMDIM : ℚ) := by
        rw [hk, hIM]
        have := hx_le p hp
        nlinarith
      have b2 : p.2 * ((IMDIM : ℚ) / (max (10 : ℚ) 10 + min (0 : ℚ) 0)) ≤ (IMDIM : ℚ) := by
        rw [hk, hIM]
        have := hy_le p hp
        nlinarith
      exact ⟨b1, b2⟩
    · obtain ⟨p, hp, hp1⟩ := List.mem_map.mp (foldMax_mem _ _ hmx)
      refine ⟨_, hmem_in p hp, Or.inl ?_⟩
      show p.1 * ((IMDIM : ℚ) / (max (10 : ℚ) 10 + min (0 : ℚ) 0)) = (IMDIM : ℚ)
      rw [hk, hIM, hp1]
      norm_num

/-- C7 witness: the path `[[(0,0),(10,10)]]` scales to
`[[(0,0),(305,305)]]`. -/
theorem scale_bounds_witness :
    scale [[((0 : ℚ), (0 : ℚ)), (10, 10)]] = some [[(0, 0), (305, 305)]] ∧
    (((∀ p ∈ ([[((0 : ℚ), (0 : ℚ)), (10, 10)]] : List (List QPoint)).flatMap id,
        0 ≤ p.1 ∧ 0 ≤ p.2) →
      ∀ q ∈ ([[((0 : ℚ), (0 : ℚ)), (305, 305)]] : List (List QPoint)).flatMap id,
        0 ≤ q.1 ∧ q.1 ≤ (IMDIM : ℚ) ∧ 0 ≤ q.2 ∧ q.2 ≤ (IMDIM : ℚ)) ∧
     (foldMin (coordsX [[((0 : ℚ), (0 : ℚ)), (10, 10)]]) = some 0 →
      foldMin (coordsY [[((0 : ℚ), (0 : ℚ)), (10, 10)]]) = some 0 →
      foldMax (coordsX [[((0 : ℚ), (0 : ℚ)), (10, 10)]]) = some 10 →
      foldMax (coordsY [[((0 : ℚ), (0 : ℚ)), (10, 10)]]) = some 10 →
       (∀ q ∈ ([[((0 : ℚ), (0 : ℚ)), (305, 305)]] : List (List QPoint)).flatMap id,
         q.1 ≤ (IMDIM : ℚ) ∧ q.2 ≤ (IMDIM : ℚ)) ∧
       ∃ q ∈ ([[((0 : ℚ), (0 : ℚ)), (305, 305)]] : List (List QPoint)).flatMap id,
         q.1 = (IMDIM : ℚ) ∨ q.2 = (IMDIM : ℚ))) := by
  have hscale : scale [[((0 : ℚ), (0 : ℚ)), (10, 10)]] = some [[(0, 0), (305, 305)]] := by
    norm_num [scale, coordsX, coordsY, foldMax, foldMin, IMDIM]
  exact ⟨hscale, scale_bounds _ _ hscale⟩

/-! ## Lemmas about `parseDXF` -/

theorem pyFloat_one : pyFloat "1.0" = some 1 := by
  rw [show pyFloat "1.0" =
    some ((1 : ℚ) * (((1 : ℕ) : ℚ) + ((0 : ℕ) : ℚ) / (10 : ℚ) ^ (1 : ℕ))) from rfl]
  norm_num

theorem pyFloat_two : pyFloat "2.0" = some 2 := by
  rw [show pyFloat "2.0" =
    some ((1 : ℚ) * (((2 : ℕ) : ℚ) + ((0 : ℕ) : ℚ) / (10 : ℚ) ^ (1 : ℕ))) from rfl]
  norm_num

theorem stripStr_seqend_lit : stripStr "SEQEND" = "SEQEND" := rfl
theorem stripStr_10_lit : stripStr "10" = "10" := rfl
theorem stripStr_20_lit : stripStr "20" = "20" := rfl

theorem parseLoop_nil (s : DxfState) : parseLoop s [] = some s.path := rfl

theorem parseLoop_polyline (s : DxfState) (rest : List String) :
    parseLoop s ("POLYLINE" :: rest) =
      parseLoop { s with segment := s.segment + 1, polyline := true,
                         path := s.path ++ [[]] } rest := by
  rw [parseLoop.eq_def]
  simp

theorem parseLoop_vertex (s : DxfState) (rest : List String) :
    parseLoop s ("VERTEX" :: rest) = parseLoop { s with vertex := true } rest := by
  rw [parseLoop.eq_def]
  simp

theorem parseLoop_seqend (s : DxfState) (rest : List String) :
    parseLoop s ("SEQEND" :: rest) =
      parseLoop { s with polyline := false, vertex := false } rest := by
  rw [parseLoop.eq_def]
  simp [stripStr_seqend_lit]

theorem parseLoop_x10 (s : DxfState) (v : String) (xv : ℚ) (rest : List String)
    (hv : s.vertex = true) (hp : s.polyline = true) (hval : pyFloat v = some xv) :
    parseLoop s ("10" :: v :: rest) = parseLoop { s with x := some xv } rest := by
  rw [parseLoop.eq_def]
  simp [stripStr_10_lit, hv, hp, hval]

theorem parseLoop_x20_append (s : DxfState) (v : String) (xv yv : ℚ)
    (rest : List String) (hv : s.vertex = true) (hp : s.polyline = true)
    (hval : pyFloat v = some yv) (hx : s.x = some xv)
    (hnew : some xv ≠ s.xold ∨ some yv ≠ s.yold) :
    parseLoop s ("20" :: v :: rest) =
      parseLoop { s with path := appendAtSeg s.path s.segment (xv, yv),
                         xold := some xv, yold := some yv } rest := by
  rw [parseLoop.eq_def]
  simp only [stripStr_10_lit, stripStr_20_lit, hv, hp, hval, hx]
  simp [hnew]

theorem parseLoop_x20_skip (s : DxfState) (v : String) (xv yv : ℚ)
    (rest : List String) (hv : s.vertex = true) (hp : s.polyline = true)
    (hval : pyFloat v = some yv) (hx : s.x = some xv)
    (hold : some xv = s.xold ∧ some yv = s.yold) :
    parseLoop s ("20" :: v :: rest) = parseLoop s rest := by
  rw [parseLoop.eq_def]
  simp only [stripStr_10_lit, stripStr_20_lit, hv, hp, hval, hx]
  simp [hold.1, hold.2]

/-- C6 (amended): a parsed vertex is appended iff it differs from the
previously captured vertex *of the whole file* — the `xold`/`yold`
memory is never reset at a `POLYLINE` boundary.  Consequently a repeated
vertex inside one shape is skipped (first conjunct), and the first vertex
of a new `POLYLINE` is also skipped whenever it equals the last captured
vertex of the previous shape, leaving the new polyline empty (second
conjunct). -/
theorem parseDXF_dup_skip_global (s1 s2 : String) (a b : ℚ)
    (h1 : pyFloat s1 = some a) (h2 : pyFloat s2 = some b) :
    parseDXF ["POLYLINE", "VERTEX", "10", s1, "20", s2,
              "VERTEX", "10", s1, "20", s2, "SEQEND"] = some [[(a, b)]] ∧
    parseDXF ["POLYLINE", "VERTEX", "10", s1, "20", s2, "SEQEND",
              "POLYLINE", "VERTEX", "10", s1, "20", s2, "SEQEND"] =
      some [[(a, b)], []] := by
  constructor
  · rw [parseDXF, parseLoop_polyline, parseLoop_vertex,
        parseLoop_x10 _ _ _ _ rfl rfl h1,
        parseLoop_x20_append _ _ _ _ _ rfl rfl h2 rfl (Or.inl (by simp)),
        parseLoop_vertex,
        parseLoop_x10 _ _ _ _ rfl rfl h1,
        parseLoop_x20_skip _ _ _ _ _ rfl rfl h2 rfl ⟨rfl, rfl⟩,
        parseLoop_seqend, parseLoop_nil]
    simp [appendAtSeg]
  · rw [parseDXF, parseLoop_polyline, parseLoop_vertex,
        parseLoop_x10 _ _ _ _ rfl rfl h1,
        parseLoop_x20_append _ _ _ _ _ rfl rfl h2 rfl (Or.inl (by simp)),
        parseLoop_seqend, parseLoop_polyline, parseLoop_vertex,
        parseLoop_x10 _ _ _ _ rfl rfl h1,
        parseLoop_x20_skip _ _ _ _ _ rfl rfl h2 rfl ⟨rfl, rfl⟩,
        parseLoop_seqend, parseLoop_nil]
    simp [appendAtSeg]

/-- C6 witness: the amended statement at the concrete vertex `(1.0, 2.0)`. -/
theorem parseDXF_dup_skip_global_witness :
    pyFloat "1.0" = some 1 ∧ pyFloat "2.0" = some 2 ∧
    (parseDXF ["POLYLINE", "VERTEX", "10", "1.0", "20", "2.0",
               "VERTEX", "10", "1.0", "20", "2.0", "SEQEND"] = some [[(1, 2)]] ∧
     parseDXF ["POLYLINE", "VERTEX", "10", "1.0", "20", "2.0", "SEQEND",
               "POLYLINE", "VERTEX", "10", "1.0", "20", "2.0", "SEQEND"] =
       some [[(1, 2)], []]) :=
  ⟨pyFloat_one, pyFloat_two,
   parseDXF_dup_skip_global "1.0" "2.0" 1 2 pyFloat_one pyFloat_two⟩

/-- C6 counterexample: in the two-polyline file whose second `POLYLINE`
starts with the same vertex `(1.0, 2.0)` that closed the first one, the
second polyline comes out *empty* — its first vertex is not appended,
because `xold`/`yold` still hold the previous shape's last vertex — while
the claim requires it to be appended (yielding `[[(1,2)], [(1,2)]]`). -/
theorem parseDXF_cross_shape_dup_cex :
    parseDXF ["POLYLINE", "VERTEX", "10", "1.0", "20", "2.0", "SEQEND",
              "POLYLINE", "VERTEX", "10", "1.0", "20", "2.0", "SEQEND"] =
      some [[(1, 2)], []] ∧
    parseDXF ["POLYLINE", "VERTEX", "10", "1.0", "20", "2.0", "SEQEND",
              "POLYLINE", "VERTEX", "10", "1.0", "20", "2.0", "SEQEND"] ≠
      some [[(1, 2)], [(1, 2)]] := by
  have h := (parseDXF_dup_skip_global "1.0" "2.0" 1 2 pyFloat_one pyFloat_two).2
  refine ⟨h, ?_⟩
  rw [h]
  simp

/-! ## Lemmas about `smoothRasterCoords` -/

theorem innerScan_stop (s : List QPoint) (i j : ℕ) (acc : List QPoint)
    (h : j ≤ i + 1) : innerScan s i j acc = (acc, i) := by
  cases j with
  | zero => rfl
  | succ j =>
    simp only [innerScan]
    rw [if_neg (by omega)]

theorem pair_sublist_slice (s : List QPoint) (i j : ℕ) (hij : i < j)
    (hj : j < s.length) :
    ([s.getD i (0, 0), s.getD j (0, 0)]).Sublist ((s.drop i).take (j + 1 - i)) := by
  have hi : i < s.length := lt_trans hij hj
  have h1 : s.drop i = s.getD i (0, 0) :: s.drop (i + 1) := by
    rw [List.getD_eq_getElem _ _ hi]
    exact List.drop_eq_getElem_cons hi
  have h2 : j + 1 - i = (j - i) + 1 := by omega
  rw [h1, h2, List.take_succ_cons]
  apply List.Sublist.cons₂
  rw [List.singleton_sublist]
  have hlen : j - (i + 1) < ((s.drop (i + 1)).take (j - i)).length := by
    simp only [List.length_take, List.length_drop]
    omega
  have heq : ((s.drop (i + 1)).take (j - i)).get ⟨j - (i + 1), hlen⟩ = s.getD j (0, 0) := by
    simp only [List.get_eq_getElem]
    rw [List.getElem_take, List.getElem_drop, List.getD_eq_getElem _ _ hj]
    congr 1
    omega
  rw [← heq]
  exact List.get_mem _ _ _

theorem innerScan_spec (s : List QPoint) :
    ∀ (j i : ℕ) (acc : List QPoint), j < s.length →
      ∃ δ, (innerScan s i j acc).1 = acc ++ δ ∧
        δ.Sublist ((s.drop i).take ((innerScan s i j acc).2 + 1 - i)) := by
  intro j
  induction j with
  | zero =>
    intro i acc _
    exact ⟨[], by simp [innerScan], by simp⟩
  | succ j ih =>
    intro i acc hj
    by_cases hcond : j + 1 > i + 1
    · by_cases hdel : canDel s i (j + 1) = true
      · have hr : innerScan s i (j + 1) acc =
            (acc ++ [s.getD i (0, 0), s.getD (j + 1) (0, 0)], j + 1) := by
          simp only [innerScan]
          rw [if_pos hcond, if_pos hdel]
          exact innerScan_stop s (j + 1) j _ (by omega)
        rw [hr]
        exact ⟨[s.getD i (0, 0), s.getD (j + 1) (0, 0)], rfl,
          pair_sublist_slice s i (j + 1) (by omega) hj⟩
      · have hr : innerScan s i (j + 1) acc = innerScan s i j acc := by
          simp only [innerScan]
          rw [if_pos hcond, if_neg hdel]
        rw [hr]
        exact ih i acc (by omega)
    · have hr : innerScan s i (j + 1) acc = (acc, i) := by
        simp only [innerScan]
        rw [if_neg hcond]
      rw [hr]
      exact ⟨[], by simp, by simp⟩

theorem outerScan_spec (s : List QPoint) (i : ℕ) (acc : List QPoint) :
    ∃ δ, outerScan s i acc = acc ++ δ ∧ δ.Sublist (s.drop i) := by
  have H : ∀ (n i : ℕ) (acc : List QPoint), s.length - i ≤ n →
      ∃ δ, outerScan s i acc = acc ++ δ ∧ δ.Sublist (s.drop i) := by
    intro n
    induction n with
    | zero =>
      intro i acc hle
      rw [outerScan]
      rw [dif_neg (by omega)]
      exact ⟨[], by simp, by simp⟩
    | succ n ihn =>
      intro i acc hle
      rw [outerScan]
      by_cases hi : i < s.length - 2
      · rw [dif_pos hi]
        obtain ⟨d1, hd1, hs1⟩ := innerScan_spec s (s.length - 1) i acc (by omega)
        have hle' : i ≤ (innerScan s i (s.length - 1) acc).2 :=
          innerScan_le s (s.length - 1) i acc
        obtain ⟨d2, hd2, hs2⟩ := ihn ((innerScan s i (s.length - 1) acc).2 + 1)
          (innerScan s i (s.length - 1) acc).1 (by omega)
        refine ⟨d1 ++ d2, ?_, ?_⟩
        · show outerScan s ((innerScan s i (s.length - 1) acc).2 + 1)
            (innerScan s i (s.length - 1) acc).1 = _
          rw [hd2, hd1, List.append_assoc]
        · have hsplit : s.drop i =
              (s.drop i).take ((innerScan s i (s.length - 1) acc).2 + 1 - i) ++
                s.drop ((innerScan s i (s.length - 1) acc).2 + 1) := by
            conv_lhs => rw [← List.take_append_drop
              ((innerScan s i (s.length - 1) acc).2 + 1 - i) (s.drop i)]
            congr 1
            rw [List.drop_drop]
            congr 1
            omega
          rw [hsplit]
          exact List.Sublist.append hs1 hs2
      · rw [dif_neg hi]
        exact ⟨[], by simp, by simp⟩
  exact H (s.length - i) i acc le_rfl

theorem smoothShape_spec (s : List QPoint) :
    (smoothShape s).Sublist s ∧ (smoothShape s).length ≤ s.length ∧
    (s.length ≤ 2 → smoothShape s = s) := by
  by_cases hlen : s.length ≤ 2
  · rw [smoothShape, if_pos hlen]
    exact ⟨List.Sublist.refl s, le_rfl, fun _ => rfl⟩
  · rw [smoothShape, if_neg hlen]
    obtain ⟨δ, hδ, hsub⟩ := outerScan_spec s 0 []
    rw [List.nil_append] at hδ
    rw [List.drop_zero] at hsub
    by_cases hnil : (outerScan s 0 []).length = 0
    · rw [if_pos hnil]
      exact ⟨List.Sublist.refl s, le_rfl, fun h => absurd h hlen⟩
    · rw [if_neg hnil]
      rw [hδ]
      exact ⟨hsub, hsub.length_le, fun h => absurd h hlen⟩

/-- C1: each output polyline of `smoothRasterCoords` is a subsequence of
the corresponding input polyline (only original points, in order, each
input position used at most once, nothing interpolated), its length is at
most the input length, and inputs of length ≤ 2 are returned unchanged;
the shape count is preserved. -/
theorem smoothRasterCoords_sublist (coords : List (List QPoint)) (i : ℕ)
    (hi : i < coords.length) :
    (smoothRasterCoords coords).length = coords.length ∧
    ((smoothRasterCoords coords).getD i []).Sublist (coords.getD i []) ∧
    ((smoothRasterCoords coords).getD i []).length ≤ (coords.getD i []).length ∧
    ((coords.getD i []).length ≤ 2 →
      (smoothRasterCoords coords).getD i [] = coords.getD i []) := by
  have hlen : (smoothRasterCoords coords).length = coords.length :=
    List.length_map coords smoothShape
  have hget : (smoothRasterCoords coords).getD i [] = smoothShape (coords.getD i []) := by
    rw [List.getD_eq_getElem _ _ (by rw [hlen]; exact hi),
        List.getD_eq_getElem _ _ hi]
    simp [smoothRasterCoords]
  rw [hget]
  exact ⟨hlen, (smoothShape_spec _).1, (smoothShape_spec _).2.1, (smoothShape_spec _).2.2⟩

/-- C1 witness: the three-point collinear shape `[(0,0),(1,0),(2,0)]` at
index 0. -/
theorem smoothRasterCoords_sublist_witness :
    0 < ([[((0 : ℚ), (0 : ℚ)), (1, 0), (2, 0)]] : List (List QPoint)).length ∧
    ((smoothRasterCoords [[((0 : ℚ), (0 : ℚ)), (1, 0), (2, 0)]]).length =
      ([[((0 : ℚ), (0 : ℚ)), (1, 0), (2, 0)]] : List (List QPoint)).length ∧
     ((smoothRasterCoords [[((0 : ℚ), (0 : ℚ)), (1, 0), (2, 0)]]).getD 0 []).Sublist
       (([[((0 : ℚ), (0 : ℚ)), (1, 0), (2, 0)]] : List (List QPoint)).getD 0 []) ∧
     ((smoothRasterCoords [[((0 : ℚ), (0 : ℚ)), (1, 0), (2, 0)]]).getD 0 []).length ≤
       (([[((0 : ℚ), (0 : ℚ)), (1, 0), (2, 0)]] : List (List QPoint)).getD 0 []).length ∧
     ((([[((0 : ℚ), (0 : ℚ)), (1, 0), (2, 0)]] : List (List QPoint)).getD 0 []).length ≤ 2 →
       (smoothRasterCoords [[((0 : ℚ), (0 : ℚ)), (1, 0), (2, 0)]]).getD 0 [] =
         ([[((0 : ℚ), (0 : ℚ)), (1, 0), (2, 0)]] : List (List QPoint)).getD 0 [])) :=
  ⟨by decide, smoothRasterCoords_sublist [[(0, 0), (1, 0), (2, 0)]] 0 (by decide)⟩
